import Mathlib

set_option linter.unnecessarySeqFocus false

/-!
# Verification of the comment-thread engine and AI request protocol

Shallow embedding of the core of the `workshop` writing surface:

* the comment-thread store (`src/lib/store/commentStore.ts`):
  `getDocumentComments`, `addReplyToThread`, `deleteMessage`, `deleteComment`;
* the reconciliation passes of the editor (`Editor.tsx`):
  `cleanupOrphanedMarks`, `cleanupOrphanedComments`, and the position
  resolver `getAllCommentData`;
* the comment panel (`CommentPanel.tsx`): `refreshCommentData`,
  `sortedThreads`, and the reply-input visibility condition;
* the AI endpoint (`src/app/api/ai/route.ts`): `validateRequest`,
  `parseJSONResponse`, `callAnthropicWithTimeout`, `POST`.

Conventions of the embedding:

* `Date.now()` and `generateId()` are passed in as explicit parameters.
* The rich-text content tree is modelled as the list, in document
  (traversal) order, of its text spans; each span carries its text, its
  ProseMirror document position, and the `commentId` of its comment mark,
  if any.  Comment marks are self-exclusive in ProseMirror (a mark type
  excludes itself by default), so a text node carries at most one comment
  mark; marks of other types are irrelevant to every function modelled
  here and are omitted.
* The stable JavaScript `Array.prototype.sort` (stable since ES2019) is
  modelled by a stable insertion sort.
* `JSON.parse` is modelled by an executable fueled recursive-descent
  parser over the JSON grammar; a thrown `SyntaxError` is `none`.
-/

/-! ## JSON values (the shape of `JSON.parse` results) -/

/-- A JavaScript JSON value.  Numbers keep their source lexeme: the only
fact about a number the code under verification ever consults is its
truthiness, which is decidable from the lexeme. -/
inductive Json where
  | null : Json
  | bool (b : Bool) : Json
  | num (lexeme : String) : Json
  | str (s : String) : Json
  | arr (elems : List Json) : Json
  | obj (fields : List (String × Json)) : Json
deriving Repr, Inhabited

namespace Json

/-- Property access `j[k]` as JavaScript performs it on a parsed JSON
value: only objects have string-keyed own properties; `JSON.parse` lets a
later duplicate key overwrite an earlier one, so the last binding wins.
Access on `null` throws, but every access site in the verified code sits
inside a `try` whose handler behaves exactly as the `undefined` case, so
`none` models both `undefined` and the caught throw. -/
def getField (j : Json) (k : String) : Option Json :=
  match j with
  | .obj fields => (fields.reverse.find? (fun kv => kv.1 = k)).map (·.2)
  | _ => none

/-- Is a number lexeme numerically zero (`0`, `-0`, `0.00`, `0e9`, …)?
Every digit before the exponent marker must be `0`. -/
def zeroLexeme (s : String) : Bool :=
  (s.data.takeWhile (fun c => c ≠ 'e' ∧ c ≠ 'E')).all
    (fun c => ¬ c.isDigit ∨ c = '0')

/-- JavaScript truthiness of a JSON value. -/
def truthy : Json → Bool
  | .null => false
  | .bool b => b
  | .num s => ¬ zeroLexeme s
  | .str s => s ≠ ""
  | .arr _ => true
  | .obj _ => true

end Json

/-! ## The data model (`src/lib/types.ts`) -/

/-- Model of `CommentMessage` from `src/lib/types.ts`. -/
structure CommentMessage where
  id : String
  content : String
  author : String
  createdAt : Nat
  updatedAt : Nat
  status : Option String := none
deriving Repr, DecidableEq, Inhabited

/-- Model of `CommentThread` from `src/lib/types.ts`.  The optional `isAIThread`
flag is modelled as a `Bool` with the absent field read as `false`, which
is how every conditional in the code treats it. -/
structure CommentThread where
  id : String
  documentId : String
  highlightedText : String
  messages : List CommentMessage
  resolved : Bool
  createdAt : Nat
  updatedAt : Nat
  isAIThread : Bool := false
  aiMode : Option String := none
deriving Repr, DecidableEq, Inhabited

/-- One text span of the content tree, in document order: its text, the
`commentId` attribute of its comment mark (if marked), and its ProseMirror
document position. -/
structure TextSpan where
  text : String
  commentId : Option String
  pos : Nat
deriving Repr, DecidableEq, Inhabited

/-! ## Stable sort (JavaScript `Array.prototype.sort`) -/

/-- Insert `x` into `l` before the first element `y` with `¬ le x y`;
elements equivalent to `x` that are already present stay before it, which
is exactly the stability contract of `Array.prototype.sort`. -/
def insertSorted (le : α → α → Bool) (x : α) : List α → List α
  | [] => [x]
  | y :: ys => if le x y then x :: y :: ys else y :: insertSorted le x ys

/-- Stable sort by the boolean total preorder `le`; models the (stable)
JavaScript `Array.prototype.sort` under a consistent comparator. -/
def stableSort (le : α → α → Bool) : List α → List α
  | [] => []
  | x :: xs => insertSorted le x (stableSort le xs)

theorem mem_insertSorted (le : α → α → Bool) (x a : α) (l : List α) :
    a ∈ insertSorted le x l ↔ a = x ∨ a ∈ l := by
  induction l with
  | nil => simp [insertSorted]
  | cons y ys ih =>
    simp only [insertSorted]
    by_cases h : le x y <;> simp [h, ih] <;> tauto

theorem mem_stableSort (le : α → α → Bool) (a : α) (l : List α) :
    a ∈ stableSort le l ↔ a ∈ l := by
  induction l with
  | nil => simp [stableSort]
  | cons x xs ih => simp [stableSort, mem_insertSorted, ih]

theorem perm_insertSorted (le : α → α → Bool) (x : α) (l : List α) :
    (insertSorted le x l).Perm (x :: l) := by
  induction l with
  | nil => simp [insertSorted]
  | cons y ys ih =>
    simp only [insertSorted]
    by_cases h : le x y
    · simp [h]
    · simpa [h] using ((ih.cons y).trans (List.Perm.swap x y ys))

theorem perm_stableSort (le : α → α → Bool) (l : List α) :
    (stableSort le l).Perm l := by
  induction l with
  | nil => simp [stableSort]
  | cons x xs ih =>
    exact (perm_insertSorted le x (stableSort le xs)).trans (ih.cons x)

theorem pairwise_insertSorted (le : α → α → Bool)
    (htot : ∀ a b, le a b ∨ le b a) (htrans : ∀ a b c, le a b → le b c → le a c)
    (x : α) (l : List α) (hl : l.Pairwise (fun a b => le a b)) :
    (insertSorted le x l).Pairwise (fun a b => le a b) := by
  induction l with
  | nil => simp [insertSorted]
  | cons y ys ih =>
    simp only [insertSorted]
    rcases List.pairwise_cons.mp hl with ⟨hy, hys⟩
    by_cases h : le x y
    · simp only [h, if_true]
      refine List.pairwise_cons.mpr ⟨?_, hl⟩
      intro b hb
      rcases List.mem_cons.mp hb with rfl | hb
      · exact h
      · exact htrans _ _ _ h (hy _ hb)
    · have hyx : le y x := (htot x y).resolve_left (by simpa using h)
      simp only [h, if_false]
      refine List.pairwise_cons.mpr ⟨?_, ih hys⟩
      intro b hb
      rcases (mem_insertSorted le x b ys).mp hb with rfl | hb
      · exact hyx
      · exact hy _ hb

theorem pairwise_stableSort (le : α → α → Bool)
    (htot : ∀ a b, le a b ∨ le b a) (htrans : ∀ a b c, le a b → le b c → le a c)
    (l : List α) : (stableSort le l).Pairwise (fun a b => le a b) := by
  induction l with
  | nil => simp [stableSort]
  | cons x xs ih => exact pairwise_insertSorted le htot htrans x _ ih

theorem filter_insertSorted (le : α → α → Bool) (p : α → Bool)
    (hp : ∀ y, le x y = false → p x → p y → False)
    (l : List α) :
    (insertSorted le x l).filter p =
      if p x then x :: l.filter p else l.filter p := by
  induction l with
  | nil => by_cases h : p x <;> simp [insertSorted, h]
  | cons y ys ih =>
    simp only [insertSorted]
    by_cases h : le x y
    · by_cases hx : p x <;> simp [List.filter, h, hx]
    · have hy : p x → p y → False := hp y (by simpa using h)
      simp only [h, if_false]
      by_cases hx : p x
      · have hpy : p y = false := by
          cases hhy : p y
          · rfl
          · exact absurd (hy hx hhy) (fun f => f)
        simp [List.filter, hpy, ih, hx]
      · by_cases hpy : p y <;> simp [List.filter, hpy, ih, hx]

theorem filter_stableSort (le : α → α → Bool) (p : α → Bool)
    (hp : ∀ x y, le x y = false → p x → p y → False)
    (l : List α) : (stableSort le l).filter p = l.filter p := by
  induction l with
  | nil => simp [stableSort]
  | cons x xs ih =>
    simp only [stableSort]
    rw [filter_insertSorted le p (hp x) (stableSort le xs)]
    by_cases hx : p x <;> simp [List.filter, hx, ih]

/-! ## The comment store (`src/lib/store/commentStore.ts`)

The persisted store is the deserialized `playground:comments` record: a
list of `CommentThread`s.  Each store operation is the read–modify–write
the source performs, with the global thread list passed in and returned
explicitly; `Date.now()` and `generateId()` results are parameters. -/

/-- Model of `getDocumentComments`: the threads of the document, sorted
ascending by `createdAt` (the stable JavaScript sort with comparator
`a.createdAt - b.createdAt`). -/
def getDocumentComments (threads : List CommentThread) (documentId : String) :
    List CommentThread :=
  stableSort (fun a b => a.createdAt ≤ b.createdAt)
    (threads.filter (fun t => t.documentId = documentId))

/-- Model of `addReplyToThread`: append a freshly built user message to the first
thread with the given id and bump its `updatedAt`; `none` (with the store
unchanged) when no thread has that id.  `newId` and `now` stand for
`generateId()` and `Date.now()`. -/
def addReplyToThread (threads : List CommentThread) (threadId : String)
    (content : String) (newId : String) (now : Nat) :
    List CommentThread × Option CommentMessage :=
  match threads.findIdx? (fun t => t.id = threadId) with
  | none => (threads, none)
  | some index =>
    let newMessage : CommentMessage :=
      { id := newId, content := content, author := "user",
        createdAt := now, updatedAt := now }
    let t := threads.getD index default
    (threads.set index
      { t with messages := t.messages ++ [newMessage], updatedAt := now },
      some newMessage)

/-- Model of `deleteMessage`: drop the message from the first thread with the given
id; when the thread would be left with no messages, remove the whole
thread and return `true`, otherwise keep the thread with its `updatedAt`
bumped and return `false`; `false` with the store untouched when the
thread does not exist. -/
def deleteMessage (threads : List CommentThread) (threadId messageId : String)
    (now : Nat) : List CommentThread × Bool :=
  match threads.findIdx? (fun t => t.id = threadId) with
  | none => (threads, false)
  | some threadIndex =>
    let thread := threads.getD threadIndex default
    let newMessages := thread.messages.filter (fun m => ¬ m.id = messageId)
    if newMessages.isEmpty then
      (threads.eraseIdx threadIndex, true)
    else
      (threads.set threadIndex
        { thread with messages := newMessages, updatedAt := now }, false)

/-- Model of `deleteComment`: remove every thread with the given id. -/
def deleteComment (threads : List CommentThread) (id : String) :
    List CommentThread :=
  threads.filter (fun t => ¬ t.id = id)

/-! ## The position resolver (`Editor.tsx`, `getAllCommentData`)

`getAllCommentData` walks `doc.descendants` in document order and builds
a record keyed by thread id: on the first span carrying an id it stores
the text and document position of that span; every later span carrying the id
appends its text, keeping the first position. -/

/-- One resolver entry: live anchored text and first-occurrence position. -/
structure CommentData where
  text : String
  position : Nat
deriving Repr, DecidableEq, Inhabited

/-- Lookup in the record built by the resolver (JavaScript `data[id]`). -/
def lookupEntry (id : String) : List (String × CommentData) → Option CommentData
  | [] => none
  | (k, e) :: rest => if k = id then some e else lookupEntry id rest

/-- Step `data[id].text += node.text` on an existing record entry. -/
def appendText (id : String) (txt : String) :
    List (String × CommentData) → List (String × CommentData)
  | [] => []
  | (k, e) :: rest =>
    if k = id then (k, { e with text := e.text ++ txt }) :: rest
    else (k, e) :: appendText id txt rest

/-- The body of the `doc.descendants` callback of `getAllCommentData`:
first occurrence stores `{text, position}`, later occurrences append. -/
def addSpan (data : List (String × CommentData)) (span : TextSpan) :
    List (String × CommentData) :=
  match span.commentId with
  | none => data
  | some id =>
    match lookupEntry id data with
    | none => data ++ [(id, { text := span.text, position := span.pos })]
    | some _ => appendText id span.text data

/-- Model of `getAllCommentData`: fold the callback over the spans in document
order, starting from the empty record. -/
def getAllCommentData (doc : List TextSpan) : List (String × CommentData) :=
  doc.foldl addSpan []

/-! Spec-side restatement of the resolver contract (§4.1 of the spec),
used to compare `getAllCommentData` against the words of the specification. -/

/-- Modelled from the spec: the concatenation, in document order, of the
text of every span carrying the given thread id. -/
def specResolvedText (id : String) : List TextSpan → String
  | [] => ""
  | s :: rest =>
    (if s.commentId = some id then s.text else "") ++ specResolvedText id rest

/-- Modelled from the spec: the entry §4.1 prescribes for a thread id —
the merged text together with the document offset of the first span
carrying the id; no entry when no span carries it. -/
def specEntry (id : String) (doc : List TextSpan) : Option CommentData :=
  match doc.find? (fun s => s.commentId = some id) with
  | some s => some { text := specResolvedText id doc, position := s.pos }
  | none => none

/-! ## The reconciliation passes (`Editor.tsx`) -/

/-- Does the comment mark of a span survive `cleanupOrphanedMarks` given the
set of valid ids?  (`tr.removeMark` clears the mark attribute, leaving the
text in place.) -/
def stripOrphanMark (validIds : List String) (s : TextSpan) : TextSpan :=
  match s.commentId with
  | some id => if validIds.contains id then s else { s with commentId := none }
  | none => s

/-- Model of `cleanupOrphanedMarks`: collect the ids of the stored
threads of the document, strip every comment mark whose id is not among
them, and dispatch
a transaction only when some mark was stripped.  Returns the resulting
content tree and the `hasChanges` flag (true exactly when a transaction
was dispatched, i.e. when a mutation happened). -/
def cleanupOrphanedMarks (doc : List TextSpan) (threads : List CommentThread)
    (documentId : String) : List TextSpan × Bool :=
  let validIds := (getDocumentComments threads documentId).map (·.id)
  (doc.map (stripOrphanMark validIds),
   doc.any (fun s =>
     match s.commentId with
     | some id => ¬ validIds.contains id
     | none => false))

/-- Model of `cleanupOrphanedComments` (the debounced thread-cleanup pass):
collect the ids carried by at least one mark; for each stored thread of
the document that is not an AI thread and has no mark, call
`deleteComment` and emit one `onCommentDeleted` notification; finally run
`cleanupOrphanedMarks` against the store as it stands after the
deletions.  Returns the store after the deletions, the list of deletion
notifications in emission order, and the mark-cleanup result. -/
def cleanupOrphanedComments (doc : List TextSpan)
    (threads : List CommentThread) (documentId : String) :
    List CommentThread × List String × (List TextSpan × Bool) :=
  let activeAnywhere := fun id => doc.any (fun s => s.commentId = some id)
  let storedComments := getDocumentComments threads documentId
  let deleted := storedComments.filter
    (fun c => ¬ c.isAIThread ∧ ¬ activeAnywhere c.id)
  let threads' := deleted.foldl (fun acc c => deleteComment acc c.id) threads
  (threads', deleted.map (·.id), cleanupOrphanedMarks doc threads' documentId)

/-- Model of `handleUpdate` (the synchronous part of the editor update cycle):
run the immediate mark cleanup, then serialize the resulting content for
the debounced save.  The value is the content tree as it stands when the
cycle completes. -/
def handleUpdate (doc : List TextSpan) (threads : List CommentThread)
    (documentId : String) : List TextSpan :=
  (cleanupOrphanedMarks doc threads documentId).1

/-! ## The comment panel (`CommentPanel.tsx`) -/

/-- Cleanup step of `refreshCommentData`: read the resolver record and
delete every stored thread of the document that has no entry in it,
emitting one `onDeleteComment` notification per deleted thread.  (This
pass has no `isAIThread` exemption.)  Returns the store after the
deletions and the notifications in emission order. -/
def refreshCommentData (doc : List TextSpan) (threads : List CommentThread)
    (documentId : String) : List CommentThread × List String :=
  let data := getAllCommentData doc
  let storedThreads := getDocumentComments threads documentId
  let orphanedThreads := storedThreads.filter
    (fun t => (lookupEntry t.id data).isNone)
  (orphanedThreads.foldl (fun acc t => deleteComment acc t.id) threads,
   orphanedThreads.map (·.id))

/-- The sort key `commentData[t.id]?.position ?? Infinity`, as an
`Option Nat` with `none` standing for `Infinity`. -/
def threadPos (data : List (String × CommentData)) (t : CommentThread) :
    Option Nat :=
  (lookupEntry t.id data).map (·.position)

/-- Comparator `posA - posB ≤ 0` on keys where `none` is `Infinity`: the comparator
of `sortedThreads` as a boolean total preorder. -/
def posLe : Option Nat → Option Nat → Bool
  | _, none => true
  | none, some _ => false
  | some a, some b => a ≤ b

/-- Model of `sortedThreads`: `[...threads].sort((a, b) => posA - posB)` with the
position of a thread read from the resolver record and `Infinity` for a
thread with no entry. -/
def sortedThreads (data : List (String × CommentData))
    (threads : List CommentThread) : List CommentThread :=
  stableSort (fun a b => posLe (threadPos data a) (threadPos data b)) threads

/-- The render condition of the reply input in `ThreadCard`:
`(isExpanded || isSelected) && !thread.resolved`. -/
def showReplyInput (thread : CommentThread) (isExpanded isSelected : Bool) :
    Bool :=
  (isExpanded ∨ isSelected) ∧ ¬ thread.resolved

/-! ## A model of `JSON.parse`

An executable recursive-descent parser of the JSON grammar, fueled to
make termination structural.  The fuel passed at top level is large
enough for any input (every two units of fuel consume at least one
character). -/

/-- Whitespace as the JSON grammar allows between tokens. -/
def isJsonWs (c : Char) : Bool :=
  c = ' ' ∨ c = '\t' ∨ c = '\n' ∨ c = '\r'

/-- Value of a hex digit, `none` for a non-hex character. -/
def hexVal (c : Char) : Option Nat :=
  if '0' ≤ c ∧ c ≤ '9' then some (c.toNat - '0'.toNat)
  else if 'a' ≤ c ∧ c ≤ 'f' then some (c.toNat - 'a'.toNat + 10)
  else if 'A' ≤ c ∧ c ≤ 'F' then some (c.toNat - 'A'.toNat + 10)
  else none

/-- Parse the body of a JSON string after the opening quote, returning
the decoded string and the remaining input.  Handles the JSON escapes;
an unterminated string or a bare control character is a syntax error. -/
def parseStringBody : List Char → List Char → Option (String × List Char)
  | [], _ => none
  | c :: rest, acc =>
    if c = '"' then some (String.mk acc.reverse, rest)
    else if c = '\\' then
      match rest with
      | [] => none
      | e :: rest2 =>
        if e = '"' ∨ e = '\\' ∨ e = '/' then parseStringBody rest2 (e :: acc)
        else if e = 'b' then parseStringBody rest2 (Char.ofNat 8 :: acc)
        else if e = 'f' then parseStringBody rest2 (Char.ofNat 12 :: acc)
        else if e = 'n' then parseStringBody rest2 ('\n' :: acc)
        else if e = 'r' then parseStringBody rest2 ('\r' :: acc)
        else if e = 't' then parseStringBody rest2 ('\t' :: acc)
        else if e = 'u' then
          match rest2 with
          | h1 :: h2 :: h3 :: h4 :: rest3 =>
            match hexVal h1, hexVal h2, hexVal h3, hexVal h4 with
            | some a, some b, some c, some d =>
              parseStringBody rest3
                (Char.ofNat (((a * 16 + b) * 16 + c) * 16 + d) :: acc)
            | _, _, _, _ => none
          | _ => none
        else none
    else if c.toNat < 32 then none
    else parseStringBody rest (c :: acc)

/-- Parse a JSON number, returning its source lexeme and the remaining
input.  Grammar: `-? int frac? exp?` with no leading zeros. -/
def parseNumberLexeme (cs : List Char) : Option (String × List Char) :=
  let (sign, cs1) :=
    match cs with
    | '-' :: rest => (['-'], rest)
    | _ => (([] : List Char), cs)
  match cs1 with
  | [] => none
  | d :: _ =>
    if ¬ d.isDigit then none
    else
      let (intPart, cs2) :=
        if d = '0' then (['0'], cs1.drop 1)
        else (cs1.takeWhile Char.isDigit, cs1.dropWhile Char.isDigit)
      let (fracPart, cs3) :=
        match cs2 with
        | '.' :: f :: rest =>
          if f.isDigit then
            ('.' :: (f :: rest).takeWhile Char.isDigit,
             (f :: rest).dropWhile Char.isDigit)
          else ([], cs2)
        | _ => (([] : List Char), cs2)
      if fracPart = [] ∧ cs3.head? = some '.' then none
      else
        match cs3 with
        | e :: rest4 =>
          if e = 'e' ∨ e = 'E' then
            let (expSign, rest5) :=
              match rest4 with
              | s :: r => if s = '+' ∨ s = '-' then ([s], r) else ([], rest4)
              | [] => (([] : List Char), rest4)
            let expDigits := rest5.takeWhile Char.isDigit
            if expDigits = [] then none
            else some (String.mk (sign ++ intPart ++ fracPart ++ [e] ++
                expSign ++ expDigits), rest5.dropWhile Char.isDigit)
          else some (String.mk (sign ++ intPart ++ fracPart), cs3)
        | [] => some (String.mk (sign ++ intPart ++ fracPart), cs3)

mutual

/-- Parse one JSON value (after skipping leading whitespace), returning
it with the remaining input. -/
def parseValue : Nat → List Char → Option (Json × List Char)
  | 0, _ => none
  | fuel + 1, cs =>
    match cs.dropWhile isJsonWs with
    | [] => none
    | c :: rest =>
      if c = '{' then parseMembers fuel rest [] true
      else if c = '[' then parseElements fuel rest [] true
      else if c = '"' then
        (parseStringBody rest []).map (fun sr => (Json.str sr.1, sr.2))
      else if ['t', 'r', 'u', 'e'].isPrefixOf (c :: rest) then
        some (Json.bool true, (c :: rest).drop 4)
      else if ['f', 'a', 'l', 's', 'e'].isPrefixOf (c :: rest) then
        some (Json.bool false, (c :: rest).drop 5)
      else if ['n', 'u', 'l', 'l'].isPrefixOf (c :: rest) then
        some (Json.null, (c :: rest).drop 4)
      else
        (parseNumberLexeme (c :: rest)).map (fun sr => (Json.num sr.1, sr.2))

/-- Parse the members of an object after its opening brace; `first`
records that no member has been parsed yet, so a closing brace is
allowed immediately. -/
def parseMembers : Nat → List Char → List (String × Json) → Bool →
    Option (Json × List Char)
  | 0, _, _, _ => none
  | fuel + 1, cs, acc, first =>
    match cs.dropWhile isJsonWs with
    | [] => none
    | c :: rest =>
      if c = '}' ∧ first then some (Json.obj acc.reverse, rest)
      else if c = '"' then
        match parseStringBody rest [] with
        | none => none
        | some (key, rest2) =>
          match rest2.dropWhile isJsonWs with
          | ':' :: rest3 =>
            match parseValue fuel rest3 with
            | none => none
            | some (v, rest4) =>
              match rest4.dropWhile isJsonWs with
              | ',' :: rest5 => parseMembers fuel rest5 ((key, v) :: acc) false
              | '}' :: rest5 => some (Json.obj ((key, v) :: acc).reverse, rest5)
              | _ => none
          | _ => none
      else none

/-- Parse the elements of an array after its opening bracket; `first`
records that no element has been parsed yet, so a closing bracket is
allowed immediately. -/
def parseElements : Nat → List Char → List Json → Bool →
    Option (Json × List Char)
  | 0, _, _, _ => none
  | fuel + 1, cs, acc, first =>
    match cs.dropWhile isJsonWs with
    | [] => none
    | c :: rest =>
      if c = ']' ∧ first then some (Json.arr acc.reverse, rest)
      else
        match parseValue fuel (c :: rest) with
        | none => none
        | some (v, rest2) =>
          match rest2.dropWhile isJsonWs with
          | ',' :: rest3 => parseElements fuel rest3 (v :: acc) false
          | ']' :: rest3 => some (Json.arr (v :: acc).reverse, rest3)
          | _ => none

end

/-- Model of `JSON.parse`: parse one value and require only whitespace
after it; `none` models a thrown `SyntaxError`. -/
def jsonParse (s : String) : Option Json :=
  match parseValue (2 * s.length + 2) s.data with
  | some (v, rest) => if (rest.dropWhile isJsonWs).isEmpty then some v else none
  | none => none

/-- Model of JavaScript `String.prototype.trim` for the ASCII whitespace
the verified strings contain. -/
def jsTrim (s : String) : String :=
  String.mk (((s.data.dropWhile isJsonWs).reverse.dropWhile isJsonWs).reverse)

/-! ## Response parsing for synthesize mode (`route.ts`, `parseJSONResponse`) -/

/-- The backtick character. -/
def backtick : Char := Char.ofNat 96

/-- Split the input at the first occurrence of a triple backtick,
returning the part before it and the part starting with it. -/
def splitAtFence : List Char → Option (List Char × List Char)
  | [] => none
  | c :: rest =>
    if [backtick, backtick, backtick].isPrefixOf (c :: rest) then
      some ([], c :: rest)
    else (splitAtFence rest).map (fun p => (c :: p.1, p.2))

/-- The capture of the fenced-block pattern
`triple-backtick (json)? \s* \n? ([\s\S]*?) \n? triple-backtick`
evaluated as the regex engine does: the match starts at the first triple
backtick (if an attempt there finds no closing fence, no later attempt
can succeed), `(json)?` and `\s*` consume greedily, and the lazy capture
ends at the first closing fence, excluding a newline immediately before
it. -/
def fencedBlockCapture (cs : List Char) : Option (List Char) :=
  match splitAtFence cs with
  | none => none
  | some (_, atFence) =>
    let r1 := atFence.drop 3
    let r2 := if ['j', 's', 'o', 'n'].isPrefixOf r1 then r1.drop 4 else r1
    let r3 := r2.dropWhile isJsonWs
    match splitAtFence r3 with
    | none => none
    | some (body, _) =>
      if body.getLast? = some '\n' then some body.dropLast else some body

/-- The match of the lazy brace pattern: from the first opening brace to
the first closing brace after it (if the first opening brace is not
followed by a closing one, no later opening brace is either). -/
def braceCapture (cs : List Char) : Option (List Char) :=
  match cs.dropWhile (fun c => ¬ c = '{') with
  | [] => none
  | b :: rest =>
    let content := rest.takeWhile (fun c => ¬ c = '}')
    if content.length < rest.length then some (b :: content ++ ['}'])
    else none

/-- The check `parsed.message && parsed.proposedText` followed by the
construction of the result object: both fields must exist and be truthy,
and their values are returned. -/
def extractFields (j : Json) : Option (Json × Json) :=
  match j.getField "message", j.getField "proposedText" with
  | some m, some p => if m.truthy ∧ p.truthy then some (m, p) else none
  | _, _ => none

/-- Strategy 1 of `parseJSONResponse`: extract a fenced code block, trim
its contents, parse them, and require both fields. -/
def fencedStrategy (text : String) : Option (Json × Json) :=
  (fencedBlockCapture text.data).bind fun cap =>
    (jsonParse (jsTrim (String.mk cap))).bind extractFields

/-- Strategy 2 of `parseJSONResponse`: parse the first brace-delimited
substring anywhere in the text and require both fields. -/
def braceStrategy (text : String) : Option (Json × Json) :=
  (braceCapture text.data).bind fun cap =>
    (jsonParse (String.mk cap)).bind extractFields

/-- Strategy 3 of `parseJSONResponse`: parse the whole trimmed text and
require both fields. -/
def wholeTextStrategy (text : String) : Option (Json × Json) :=
  (jsonParse (jsTrim text)).bind extractFields

/-- Model of `parseJSONResponse`: try the three extraction strategies in
order, stopping at the first that succeeds; `none` when all fail.  Every
`JSON.parse` exception and every missing-field result is absorbed into
the `none` of the failing strategy, so the function is total. -/
def parseJSONResponse (text : String) : Option (Json × Json) :=
  match fencedStrategy text with
  | some r => some r
  | none =>
    match braceStrategy text with
    | some r => some r
    | none => wholeTextStrategy text

/-! ## The dispatch path (`route.ts`, `callAnthropicWithTimeout`, `POST`) -/

/-- The response shape `AskAIResponse` as the endpoint builds it. -/
structure AskAIResponse where
  message : Json
  proposedText : Option Json := none
deriving Repr, Inhabited

/-- Fixed user-facing message for a timed-out provider call. -/
def timeoutMessage : String := "Sorry—AI request took too long. Please try again."

/-- Fixed user-facing message for an authentication failure (status 401). -/
def invalidKeyMessage : String := "Sorry—API key is invalid. Please check your configuration."

/-- Fixed user-facing message for a rate-limit failure (status 429). -/
def rateLimitMessage : String := "Sorry—rate limit exceeded. Please try again in a moment."

/-- Fixed user-facing message for any other provider or network failure. -/
def genericFailureMessage : String := "Sorry—AI request failed. Please try again."

/-- Fixed configuration message for a missing provider credential. -/
def notConfiguredMessage : String := "AI service is not configured. Please add your API key."

/-- Outcome of the provider call itself: a response whose first text
content block has the given text (`none` when the response carries no
text block), or a thrown error with an optional HTTP status. -/
inductive ApiOutcome where
  | success (textBlock : Option String)
  | error (status : Option Nat)
deriving Repr, DecidableEq

/-- Outcome of racing the provider call against the fixed wall-clock
timeout: either the call settled first, or the timeout fired, in which
case the in-flight call contributes nothing to the result. -/
inductive RaceResult where
  | api (outcome : ApiOutcome)
  | timedOut
deriving Repr, DecidableEq

/-- The body of the `apiPromise` of `callAnthropicWithTimeout`: on
success extract the text block (its absence throws, which the local
handler treats as a status-less failure), parse JSON in synthesize mode
with plain-text fallback; on a thrown error classify by HTTP status. -/
def apiPromiseResult (mode : String) (outcome : ApiOutcome) : AskAIResponse :=
  match outcome with
  | .success none => { message := Json.str genericFailureMessage }
  | .success (some responseText) =>
    if mode = "synthesize" then
      match parseJSONResponse responseText with
      | some (m, p) => { message := m, proposedText := some p }
      | none => { message := Json.str responseText }
    else { message := Json.str responseText }
  | .error status =>
    if status = some 401 then { message := Json.str invalidKeyMessage }
    else if status = some 429 then { message := Json.str rateLimitMessage }
    else { message := Json.str genericFailureMessage }

/-- Model of `callAnthropicWithTimeout`: the settled result of
`Promise.race([apiPromise, timeoutPromise])`; the timeout rejection is
caught and resolved to the fixed timeout message, so the function is
total and never re-dispatches. -/
def callAnthropicWithTimeout (mode : String) (race : RaceResult) :
    AskAIResponse :=
  match race with
  | .api outcome => apiPromiseResult mode outcome
  | .timedOut => { message := Json.str timeoutMessage }

/-! ## Request validation (`route.ts`, `validateRequest`) -/

/-- Result of `typeof x === "object"` on a parsed JSON value: true for
objects, arrays and `null`. -/
def typeofObject : Json → Bool
  | .null => true
  | .arr _ => true
  | .obj _ => true
  | _ => false

/-- Truthiness of a possibly-absent field (`undefined` is falsy). -/
def optTruthy : Option Json → Bool
  | some v => v.truthy
  | none => false

/-- Result of `typeof x === "string"` on a possibly-absent field. -/
def optIsString : Option Json → Bool
  | some (Json.str _) => true
  | _ => false

/-- Result of `Array.isArray(x)` on a field value. -/
def jsonIsArray : Json → Bool
  | .arr _ => true
  | _ => false

/-- String content of a field known to be a string. -/
def strOf : Option Json → String
  | some (Json.str s) => s
  | _ => ""

/-- The per-field shape checks on an optional `brain` field:
`x !== undefined && bad shape` rejects. -/
def checkBrainField (brain : Json) (k : String) (ok : Json → Bool)
    (err : String) : Option String :=
  match brain.getField k with
  | some v => if ok v then none else some err
  | none => none

/-- Valid values of `mode` (`VALID_MODES`). -/
def validModes : List String := ["critique", "synthesize"]

/-- Model of `validateRequest`: the first violated check, in source
order, yields its specific message; `none` means the request is valid. -/
def validateRequest (body : Json) : Option String :=
  if ¬ body.truthy ∨ ¬ typeofObject body then
    some "Request body must be a JSON object"
  else if ¬ optTruthy (body.getField "mode") then
    some "Missing required field: mode"
  else if ¬ optIsString (body.getField "mode") then
    some "Field 'mode' must be a string"
  else if ¬ validModes.contains (strOf (body.getField "mode")) then
    some ("Invalid mode: " ++ strOf (body.getField "mode") ++
      ". Must be one of: critique, synthesize")
  else if ¬ optTruthy (body.getField "userPrompt") then
    some "Missing required field: userPrompt"
  else if ¬ optIsString (body.getField "userPrompt") then
    some "Field 'userPrompt' must be a string"
  else if jsTrim (strOf (body.getField "userPrompt")) = "" then
    some "Field 'userPrompt' cannot be empty"
  else if ¬ optTruthy (body.getField "context") then
    some "Missing required field: context"
  else if ¬ ((body.getField "context").map typeofObject).getD false then
    some "Field 'context' must be an object"
  else if ¬ optTruthy (((body.getField "context").getD Json.null).getField
      "selectedText") then
    some "Missing required field: context.selectedText"
  else if ¬ optIsString (((body.getField "context").getD Json.null).getField
      "selectedText") then
    some "Field 'context.selectedText' must be a string"
  else if jsTrim (strOf (((body.getField "context").getD Json.null).getField
      "selectedText")) = "" then
    some "Field 'context.selectedText' cannot be empty"
  else if optTruthy (body.getField "brain") then
    if ¬ typeofObject ((body.getField "brain").getD Json.null) then
      some "Field 'brain' must be an object"
    else
      match checkBrainField ((body.getField "brain").getD Json.null) "goal"
          (fun v => optIsString (some v)) "Field 'brain.goal' must be a string" with
      | some e => some e
      | none =>
        match checkBrainField ((body.getField "brain").getD Json.null)
            "constraints" jsonIsArray
            "Field 'brain.constraints' must be an array" with
        | some e => some e
        | none =>
          match checkBrainField ((body.getField "brain").getD Json.null)
              "glossary" jsonIsArray
              "Field 'brain.glossary' must be an array" with
          | some e => some e
          | none =>
            checkBrainField ((body.getField "brain").getD Json.null)
              "decisions" jsonIsArray
              "Field 'brain.decisions' must be an array"
  else none

/-! ## The `POST` handler -/

/-- Body of an endpoint response: a validation error `{error}` or an AI
payload `{message, proposedText?}`. -/
inductive ApiBody where
  | errorBody (error : String)
  | aiBody (response : AskAIResponse)
deriving Repr, Inhabited

/-- An HTTP response of the endpoint. -/
structure HttpResponse where
  status : Nat
  body : ApiBody
deriving Repr, Inhabited

/-- The validated `mode` field of a request body. -/
def modeOf (body : Json) : String := strOf (body.getField "mode")

/-- Model of the `POST` handler: parse the body (`none` models a JSON
parse failure of the request), validate it, check the credential, and
only then dispatch to `callAnthropicWithTimeout`; provider outcomes are
always wrapped in a 200 response. -/
def POST (body : Option Json) (hasApiKey : Bool) (race : RaceResult) :
    HttpResponse :=
  match body with
  | none => ⟨400, .errorBody "Invalid JSON body"⟩
  | some b =>
    match validateRequest b with
    | some validationError => ⟨400, .errorBody validationError⟩
    | none =>
      if ¬ hasApiKey then
        ⟨500, .aiBody { message := Json.str notConfiguredMessage }⟩
      else ⟨200, .aiBody (callAnthropicWithTimeout (modeOf b) race)⟩

/-! ## Resolver lemmas -/

theorem lookupEntry_appendText (id id' : String) (txt : String)
    (data : List (String × CommentData)) :
    lookupEntry id (appendText id' txt data) =
      if id = id' then
        (lookupEntry id data).map (fun e => { e with text := e.text ++ txt })
      else lookupEntry id data := by
  induction data with
  | nil => by_cases h : id = id' <;> simp [appendText, lookupEntry, h]
  | cons kv rest ih =>
    obtain ⟨k, e⟩ := kv
    by_cases hk : k = id'
    · by_cases hid : id = id'
      · simp [appendText, lookupEntry, hk, hid, hk.trans hid.symm]
      · have h1 : ¬ k = id := fun h => hid (h ▸ hk)
        have h2 : ¬ id' = id := fun h => hid h.symm
        simp [appendText, lookupEntry, hk, hid, h1, h2]
    · by_cases hki : k = id
      · have : ¬ id = id' := fun h => hk (hki.symm ▸ h ▸ rfl)
        simp [appendText, lookupEntry, hk, hki, this]
      · simp [appendText, lookupEntry, hk, hki, ih]

theorem lookupEntry_append_single (id id' : String) (e : CommentData)
    (data : List (String × CommentData)) :
    lookupEntry id (data ++ [(id', e)]) =
      match lookupEntry id data with
      | some x => some x
      | none => if id = id' then some e else none := by
  induction data with
  | nil =>
    by_cases h : id = id'
    · simp [lookupEntry, h]
    · have h2 : ¬ id' = id := fun hh => h hh.symm
      simp [lookupEntry, h, h2]
  | cons kv rest ih =>
    obtain ⟨k, x⟩ := kv
    by_cases hk : k = id <;> simp [lookupEntry, hk, ih]

theorem foldl_addSpan_lookup (doc : List TextSpan)
    (data : List (String × CommentData)) (id : String) :
    lookupEntry id (doc.foldl addSpan data) =
      match lookupEntry id data with
      | some e => some { e with text := e.text ++ specResolvedText id doc }
      | none => specEntry id doc := by
  induction doc generalizing data with
  | nil =>
    cases h : lookupEntry id data <;>
      simp [specResolvedText, specEntry, h, String.append_empty]
  | cons span rest ih =>
    simp only [List.foldl_cons]
    rw [ih]
    rcases hspan : span.commentId with _ | j
    · have hmark : ¬ span.commentId = some id := by simp [hspan]
      simp only [addSpan, hspan]
      cases h : lookupEntry id data <;>
        simp [specResolvedText, specEntry, hspan, hmark, h, List.find?_cons,
          if_neg]
    · simp only [addSpan, hspan]
      by_cases hji : j = id
      · subst hji
        cases h : lookupEntry j data with
        | none =>
          rw [lookupEntry_append_single]
          simp only [h, if_pos rfl]
          have hmark : span.commentId = some j := hspan
          simp [specResolvedText, specEntry, hmark, h, List.find?_cons]
        | some e =>
          rw [lookupEntry_appendText]
          simp only [if_pos rfl, h, Option.map_some]
          have hmark : span.commentId = some j := hspan
          simp [specResolvedText, hmark, String.append_assoc]
      · have hmark : ¬ span.commentId = some id := by
          simp [hspan]; exact fun h => hji h
        have hij : ¬ id = j := fun hh => hji hh.symm
        cases hj : lookupEntry j data with
        | none =>
          rw [lookupEntry_append_single]
          cases h : lookupEntry id data with
          | none =>
            simp only [h, if_neg hij]
            simp [specResolvedText, specEntry, hmark, List.find?_cons, if_neg]
          | some e => simp [h, specResolvedText, hmark]
        | some e' =>
          rw [lookupEntry_appendText]
          simp only [if_neg hij]
          cases h : lookupEntry id data <;>
            simp [h, specResolvedText, specEntry, hmark, List.find?_cons, if_neg]

theorem getAllCommentData_lookup (doc : List TextSpan) (id : String) :
    lookupEntry id (getAllCommentData doc) = specEntry id doc := by
  have := foldl_addSpan_lookup doc [] id
  simpa [getAllCommentData, lookupEntry] using this

theorem specEntry_none_iff (doc : List TextSpan) (id : String) :
    specEntry id doc = none ↔ ∀ s ∈ doc, s.commentId ≠ some id := by
  unfold specEntry
  cases h : doc.find? (fun s => s.commentId = some id) with
  | none =>
    constructor
    · intro _ s hs
      have := List.find?_eq_none.mp h s hs
      simpa using this
    · intro _
      rfl
  | some s =>
    have hmem := List.mem_of_find?_eq_some h
    have hpred : s.commentId = some id := by simpa using List.find?_some h
    constructor
    · intro hnone
      exact Option.noConfusion hnone
    · intro hall
      exact absurd hpred (hall s hmem)

theorem posLe_refl (a : Option Nat) : posLe a a := by
  cases a <;> simp [posLe]

theorem posLe_total (a b : Option Nat) : posLe a b ∨ posLe b a := by
  cases a <;> cases b <;> simp [posLe] <;> omega

theorem posLe_trans (a b c : Option Nat) :
    posLe a b → posLe b c → posLe a c := by
  cases a <;> cases b <;> cases c <;> simp [posLe] <;> omega

/-- C7: for every content tree, the position resolver returns an entry
for exactly the thread ids occurring in at least one mark, each entry
being the document-order concatenation of the text spans carrying the id
together with the document offset of the first such span (stated as
agreement with the spec-side `specEntry`); and the presentation order of
threads is ascending by that position, threads with no entry sort after
all positioned ones (`posLe` puts `none` on top), the order being
otherwise stable. -/
theorem position_resolver_contract :
    (∀ (doc : List TextSpan) (id : String),
      lookupEntry id (getAllCommentData doc) = specEntry id doc
      ∧ (lookupEntry id (getAllCommentData doc) = none ↔
          ∀ s ∈ doc, s.commentId ≠ some id))
    ∧ (∀ (data : List (String × CommentData)) (threads : List CommentThread),
      (sortedThreads data threads).Pairwise
        (fun a b => posLe (threadPos data a) (threadPos data b))
      ∧ (sortedThreads data threads).Perm threads
      ∧ ∀ k : Option Nat,
          (sortedThreads data threads).filter
              (fun t => threadPos data t = k) =
            threads.filter (fun t => threadPos data t = k)) := by
  refine ⟨fun doc id => ⟨getAllCommentData_lookup doc id, ?_⟩,
    fun data threads => ⟨?_, ?_, ?_⟩⟩
  · rw [getAllCommentData_lookup]
    exact specEntry_none_iff doc id
  · exact pairwise_stableSort
      (fun a b => posLe (threadPos data a) (threadPos data b))
      (fun a b => posLe_total _ _) (fun a b c => posLe_trans _ _ _) threads
  · exact perm_stableSort
      (fun a b => posLe (threadPos data a) (threadPos data b)) threads
  · intro k
    refine filter_stableSort
      (fun a b => posLe (threadPos data a) (threadPos data b)) _
      (fun x y hle hx hy => ?_) threads
    have hx' : threadPos data x = k := by simpa using hx
    have hy' : threadPos data y = k := by simpa using hy
    have hle' : posLe (threadPos data x) (threadPos data y) = false := hle
    rw [hx', hy'] at hle'
    exact absurd (posLe_refl k) (by simp [hle'])

/-- Concrete application of `position_resolver_contract`: a document
whose spans carry ids `b` (position 9) and `a` (positions 2 and 14,
merged). -/
theorem position_resolver_contract_witness :
    lookupEntry "a"
        (getAllCommentData
          [⟨"x", some "b", 9⟩, ⟨"hi ", some "a", 2⟩, ⟨"there", some "a", 14⟩]) =
      specEntry "a"
        [⟨"x", some "b", 9⟩, ⟨"hi ", some "a", 2⟩, ⟨"there", some "a", 14⟩]
    ∧ (sortedThreads [("a", ⟨"hi there", 2⟩), ("b", ⟨"x", 9⟩)]
        [{ id := "b", documentId := "d", highlightedText := "",
           messages := [], resolved := false, createdAt := 0, updatedAt := 0 },
         { id := "a", documentId := "d", highlightedText := "",
           messages := [], resolved := false, createdAt := 1,
           updatedAt := 1 }]).Perm
      [{ id := "b", documentId := "d", highlightedText := "",
         messages := [], resolved := false, createdAt := 0, updatedAt := 0 },
       { id := "a", documentId := "d", highlightedText := "",
         messages := [], resolved := false, createdAt := 1, updatedAt := 1 }] :=
  ⟨(position_resolver_contract.1 _ "a").1,
   (position_resolver_contract.2 _ _).2.1⟩

/-! ## Concrete fixtures used by witnesses and counterexamples -/

/-- A first sample message. -/
def msgA : CommentMessage :=
  { id := "m1", content := "hello", author := "user", createdAt := 1,
    updatedAt := 1 }

/-- A second sample message. -/
def msgB : CommentMessage :=
  { id := "m2", content := "again", author := "user", createdAt := 2,
    updatedAt := 2 }

/-- A thread holding a single message. -/
def threadOneMsg : CommentThread :=
  { id := "t", documentId := "d", highlightedText := "hi",
    messages := [msgA], resolved := false, createdAt := 1, updatedAt := 1 }

/-- A thread holding two messages. -/
def threadTwoMsg : CommentThread :=
  { id := "t", documentId := "d", highlightedText := "hi",
    messages := [msgA, msgB], resolved := false, createdAt := 1,
    updatedAt := 1 }

/-- A resolved thread. -/
def resolvedThread : CommentThread :=
  { id := "r", documentId := "d", highlightedText := "hi",
    messages := [msgA], resolved := true, createdAt := 1, updatedAt := 1 }

/-- An AI thread: no anchor marks in the content, `isAIThread` set. -/
def aiThread : CommentThread :=
  { id := "ai1", documentId := "d", highlightedText := "sel",
    messages := [], resolved := false, createdAt := 3, updatedAt := 3,
    isAIThread := true }

/-! ## C10: `deleteMessage` -/

/-- C10: deleting the only remaining message of a thread removes the
whole thread from the store and returns `true`; deleting a message from
a thread that keeps other messages leaves the thread in place with
exactly the messages of that id removed and its timestamp updated,
returning `false`; deleting from a non-existent thread returns `false`
and leaves the store unchanged. -/
theorem deleteMessage_contract :
    ∀ (threads : List CommentThread) (tid mid : String) (now : Nat),
      (threads.findIdx? (fun t => t.id = tid) = none →
        deleteMessage threads tid mid now = (threads, false))
      ∧ ∀ i, threads.findIdx? (fun t => t.id = tid) = some i →
          (∀ m, (threads.getD i default).messages = [m] → m.id = mid →
            deleteMessage threads tid mid now = (threads.eraseIdx i, true))
          ∧ ((threads.getD i default).messages.filter
                (fun m => ¬ m.id = mid) ≠ [] →
            deleteMessage threads tid mid now =
              (threads.set i
                { threads.getD i default with
                  messages := (threads.getD i default).messages.filter
                    (fun m => ¬ m.id = mid),
                  updatedAt := now }, false)) := by
  intro threads tid mid now
  constructor
  · intro h
    simp [deleteMessage, h]
  · intro i hi
    constructor
    · intro m hm hmid
      have hempty : ((threads.getD i default).messages.filter
          (fun m => ¬ m.id = mid)).isEmpty = true := by
        rw [hm]
        simp [hmid]
      simp only [deleteMessage, hi, hempty, if_true]
    · intro hne
      have hempty : ((threads.getD i default).messages.filter
          (fun m => ¬ m.id = mid)).isEmpty = false := by
        simpa [List.isEmpty_iff] using hne
      simp only [deleteMessage, hi, hempty, Bool.false_eq_true, if_false]

/-- Concrete application of `deleteMessage_contract`: deleting `m1` from
a two-message thread keeps the thread (minus `m1`, timestamp bumped) and
returns `false`; deleting `m1` from a one-message thread deletes the
thread and returns `true`; deleting from an absent thread id is a no-op
returning `false`. -/
theorem deleteMessage_contract_witness :
    deleteMessage [threadTwoMsg] "t" "m1" 9 =
      ([{ threadTwoMsg with messages := [msgB], updatedAt := 9 }], false)
    ∧ deleteMessage [threadOneMsg] "t" "m1" 9 = ([], true)
    ∧ deleteMessage [threadOneMsg] "zzz" "m1" 9 = ([threadOneMsg], false) := by
  refine ⟨?_, ?_, ?_⟩
  · have h := ((deleteMessage_contract [threadTwoMsg] "t" "m1" 9).2 0
      (by decide)).2 (by decide)
    rw [h]
    decide
  · have h := ((deleteMessage_contract [threadOneMsg] "t" "m1" 9).2 0
      (by decide)).1 msgA (by decide) (by decide)
    rw [h]
    decide
  · exact (deleteMessage_contract [threadOneMsg] "zzz" "m1" 9).1 (by decide)

/-! ## C2: replies to resolved threads -/

/-- C2 counterexample: `addReplyToThread` appends to a resolved thread —
the store-level operation does not consult the `resolved` flag, so the
message list of a resolved thread does change. -/
theorem resolved_thread_gains_reply :
    resolvedThread.resolved = true
    ∧ (addReplyToThread [resolvedThread] "r" "more" "m9" 5).1.map
        (fun t => t.messages.length) = [2]
    ∧ ¬ (addReplyToThread [resolvedThread] "r" "more" "m9" 5).1 =
        [resolvedThread] := by decide

/-- C2 as amended: the no-replies-while-resolved rule is enforced only at
the presentation layer — `ThreadCard` renders the reply input only for an
unresolved thread — while the store-level `addReplyToThread` appends the
reply to the found thread regardless of its `resolved` flag. -/
theorem resolved_reply_guard_is_ui_only :
    (∀ (thread : CommentThread) (isExpanded isSelected : Bool),
      thread.resolved = true →
      showReplyInput thread isExpanded isSelected = false)
    ∧ (∀ (threads : List CommentThread) (tid content newId : String)
        (now i : Nat),
      threads.findIdx? (fun t => t.id = tid) = some i →
        addReplyToThread threads tid content newId now =
          (threads.set i
            { threads.getD i default with
              messages := (threads.getD i default).messages ++
                [{ id := newId, content := content, author := "user",
                   createdAt := now, updatedAt := now }],
              updatedAt := now },
           some { id := newId, content := content, author := "user",
                  createdAt := now, updatedAt := now })) := by
  constructor
  · intro thread isExpanded isSelected h
    simp [showReplyInput, h]
  · intro threads tid content newId now i hi
    simp [addReplyToThread, hi]

/-- Concrete application of `resolved_reply_guard_is_ui_only`: the reply
input is hidden on a concrete resolved thread, and `addReplyToThread`
appends to that same thread. -/
theorem resolved_reply_guard_is_ui_only_witness :
    showReplyInput resolvedThread true true = false
    ∧ addReplyToThread [resolvedThread] "r" "more" "m9" 5 =
      ([{ resolvedThread with
          messages := resolvedThread.messages ++
            [{ id := "m9", content := "more", author := "user",
               createdAt := 5, updatedAt := 5 }],
          updatedAt := 5 }],
       some { id := "m9", content := "more", author := "user",
              createdAt := 5, updatedAt := 5 }) := by
  refine ⟨resolved_reply_guard_is_ui_only.1 resolvedThread true true (by decide),
    ?_⟩
  have h := resolved_reply_guard_is_ui_only.2 [resolvedThread] "r" "more" "m9"
    5 0 (by decide)
  rw [h]
  decide

/-! ## C3: AI threads and orphan-thread cleanup -/

/-- C3, evaluated at the failing input: an AI thread with zero marks is
exempt from the debounced Editor pass `cleanupOrphanedComments` (no
deletion, no notification), but the panel reconciliation pass
`refreshCommentData` deletes it and emits a deletion notification,
because its orphan filter lacks the `isAIThread` exemption. -/
theorem ai_thread_deleted_by_panel_refresh :
    aiThread.isAIThread = true
    ∧ cleanupOrphanedComments [] [aiThread] "d" = ([aiThread], [], ([], false))
    ∧ refreshCommentData [] [aiThread] "d" = ([], ["ai1"]) := by decide

/-! ## Reconciliation lemmas -/

theorem mem_getDocumentComments (threads : List CommentThread)
    (documentId : String) (t : CommentThread) :
    t ∈ getDocumentComments threads documentId ↔
      t ∈ threads ∧ t.documentId = documentId := by
  simp [getDocumentComments, mem_stableSort, List.mem_filter]

theorem mem_foldl_deleteComment (toDelete threads : List CommentThread)
    (t : CommentThread) :
    t ∈ toDelete.foldl (fun acc c => deleteComment acc c.id) threads ↔
      t ∈ threads ∧ ∀ c ∈ toDelete, ¬ t.id = c.id := by
  induction toDelete generalizing threads with
  | nil => simp
  | cons c cs ih =>
    simp only [List.foldl_cons]
    rw [ih]
    simp only [deleteComment, List.mem_filter, List.mem_cons]
    constructor
    · rintro ⟨⟨ht, hne⟩, hall⟩
      refine ⟨ht, fun d hd => ?_⟩
      rcases hd with rfl | hd
      · simpa using hne
      · exact hall d hd
    · rintro ⟨ht, hall⟩
      exact ⟨⟨ht, by simpa using hall c (Or.inl rfl)⟩,
        fun d hd => hall d (Or.inr hd)⟩

theorem stripOrphanMark_fixed (validIds : List String) (s : TextSpan) :
    stripOrphanMark validIds (stripOrphanMark validIds s) =
      stripOrphanMark validIds s := by
  rcases h : s.commentId with _ | id
  · simp [stripOrphanMark, h]
  · by_cases hc : id ∈ validIds
    · simp [stripOrphanMark, h, hc]
    · simp [stripOrphanMark, h, hc]

theorem stripOrphanMark_not_orphan (validIds : List String) (s : TextSpan) :
    (match (stripOrphanMark validIds s).commentId with
      | some id => ¬ validIds.contains id
      | none => false) = false := by
  rcases h : s.commentId with _ | id
  · simp [stripOrphanMark, h]
  · by_cases hc : id ∈ validIds
    · simp [stripOrphanMark, h, hc]
    · simp [stripOrphanMark, h, hc]

theorem cleanupOrphanedMarks_idem (doc : List TextSpan)
    (threads : List CommentThread) (documentId : String) :
    cleanupOrphanedMarks (cleanupOrphanedMarks doc threads documentId).1
        threads documentId =
      ((cleanupOrphanedMarks doc threads documentId).1, false) := by
  unfold cleanupOrphanedMarks
  refine Prod.ext ?_ ?_
  · simp only [List.map_map]
    exact List.map_congr_left (fun s _ => stripOrphanMark_fixed _ s)
  · simp only [List.any_map]
    rw [List.any_eq_false]
    intro s _
    simpa using stripOrphanMark_not_orphan
      ((getDocumentComments threads documentId).map (·.id)) s

/-! ## C8: immediate mark cleanup -/

/-- C8: the synchronous mark-cleanup of the update cycle strips exactly
the comment marks whose thread id is not among the ids of the stored
threads of the document (text and positions untouched, valid marks
kept), so after the cycle every remaining comment mark references a
stored thread. -/
theorem mark_cleanup_strips_exactly_orphans :
    ∀ (doc : List TextSpan) (threads : List CommentThread)
      (documentId : String),
      List.Forall₂ (fun s s' =>
          s'.text = s.text ∧ s'.pos = s.pos ∧
          s'.commentId =
            match s.commentId with
            | some id =>
              if id ∈ (getDocumentComments threads documentId).map (·.id)
              then some id else none
            | none => none)
        doc (handleUpdate doc threads documentId)
      ∧ ∀ s ∈ handleUpdate doc threads documentId,
          ∀ id, s.commentId = some id →
            id ∈ (getDocumentComments threads documentId).map (·.id) := by
  intro doc threads documentId
  constructor
  · unfold handleUpdate cleanupOrphanedMarks
    rw [List.forall₂_map_right_iff]
    refine List.forall₂_same.mpr (fun s _ => ?_)
    rcases h : s.commentId with _ | id
    · simp [stripOrphanMark, h]
    · by_cases hc : id ∈ (getDocumentComments threads documentId).map (·.id)
      · simp [stripOrphanMark, h, hc]
      · simp [stripOrphanMark, h, hc]
  · intro s hs id hid
    unfold handleUpdate cleanupOrphanedMarks at hs
    rcases List.mem_map.mp hs with ⟨s₀, _, rfl⟩
    rcases h : s₀.commentId with _ | id₀
    · simp [stripOrphanMark, h] at hid
    · by_cases hc : id₀ ∈ (getDocumentComments threads documentId).map (·.id)
      · have : id₀ = id := by simpa [stripOrphanMark, h, hc] using hid
        exact this ▸ hc
      · simp [stripOrphanMark, h, hc] at hid

/-- Concrete application of `mark_cleanup_strips_exactly_orphans`: a
document with one mark for the stored thread `t` and one mark for a
deleted thread `gone`; after the cycle the `gone` mark is stripped and
the surviving mark references the stored thread. -/
theorem mark_cleanup_strips_exactly_orphans_witness :
    "t" ∈ (getDocumentComments [threadOneMsg] "d").map (·.id) :=
  (mark_cleanup_strips_exactly_orphans
      [⟨"keep", some "t", 1⟩, ⟨"drop", some "gone", 6⟩]
      [threadOneMsg] "d").2
    ⟨"keep", some "t", 1⟩ (by decide) "t" (by decide)

/-! ## C9: idempotence of the reconciliation passes -/

/-- C9: both reconciliation passes are idempotent — re-running the mark
cleanup on its own output (same store) changes no span and reports no
mutation, and re-running the thread cleanup on the content and store it
produced deletes nothing, emits no notification, and leaves content and
store unchanged. -/
theorem reconciliation_passes_idempotent :
    ∀ (doc : List TextSpan) (threads : List CommentThread)
      (documentId : String),
      cleanupOrphanedMarks (cleanupOrphanedMarks doc threads documentId).1
          threads documentId =
        ((cleanupOrphanedMarks doc threads documentId).1, false)
      ∧ cleanupOrphanedComments
          (cleanupOrphanedComments doc threads documentId).2.2.1
          (cleanupOrphanedComments doc threads documentId).1 documentId =
        ((cleanupOrphanedComments doc threads documentId).1, [],
          ((cleanupOrphanedComments doc threads documentId).2.2.1, false)) := by
  intro doc threads documentId
  refine ⟨cleanupOrphanedMarks_idem doc threads documentId, ?_⟩
  set threads' := (cleanupOrphanedComments doc threads documentId).1 with hth
  set doc' := (cleanupOrphanedComments doc threads documentId).2.2.1 with hdc
  have hstore : threads' =
      ((getDocumentComments threads documentId).filter
        (fun c => ¬ c.isAIThread ∧
          ¬ doc.any (fun s => s.commentId = some c.id))).foldl
        (fun acc c => deleteComment acc c.id) threads := rfl
  -- every still-stored non-AI thread of the document keeps a mark in doc'
  have hactive : ∀ t ∈ getDocumentComments threads' documentId,
      ¬ t.isAIThread → doc'.any (fun s => s.commentId = some t.id) = true := by
    intro t hmem hnai
    rcases (mem_getDocumentComments threads' documentId t).mp hmem with
      ⟨hmem', hdocid⟩
    rw [hstore] at hmem'
    rcases (mem_foldl_deleteComment _ _ _).mp hmem' with ⟨hthreads, hkept⟩
    -- t had a mark in the original doc, else it would have been deleted
    have hmark : doc.any (fun s => s.commentId = some t.id) = true := by
      by_contra hno
      have hdel : t ∈ (getDocumentComments threads documentId).filter
          (fun c => ¬ c.isAIThread ∧
            ¬ doc.any (fun s => s.commentId = some c.id)) := by
        refine List.mem_filter.mpr
          ⟨(mem_getDocumentComments threads documentId t).mpr
            ⟨hthreads, hdocid⟩, ?_⟩
        simp_all
      exact hkept t hdel rfl
    -- that mark survives the strip because the id is still stored
    rcases List.any_eq_true.mp hmark with ⟨s, hsmem, hsid⟩
    have hid : t.id ∈ (getDocumentComments threads' documentId).map (·.id) :=
      List.mem_map.mpr ⟨t, hmem, rfl⟩
    have hsid' : s.commentId = some t.id := by simpa using hsid
    refine List.any_eq_true.mpr ⟨stripOrphanMark
      ((getDocumentComments threads' documentId).map (·.id)) s, ?_, ?_⟩
    · exact List.mem_map.mpr ⟨s, hsmem, rfl⟩
    · simp [stripOrphanMark, hsid', hid]
  -- the second pass therefore deletes nothing
  have hdel2 : (getDocumentComments threads' documentId).filter
      (fun c => ¬ c.isAIThread ∧
        ¬ doc'.any (fun s => s.commentId = some c.id)) = [] := by
    rw [List.filter_eq_nil_iff]
    intro t hmem
    by_cases hnai : t.isAIThread
    · simp [hnai]
    · have := hactive t hmem (by simpa using hnai)
      simp [hnai, this]
  show cleanupOrphanedComments doc' threads' documentId = (threads', [], (doc', false))
  unfold cleanupOrphanedComments
  simp only [hdel2, List.foldl_nil, List.map_nil]
  refine Prod.ext rfl (Prod.ext rfl ?_)
  exact cleanupOrphanedMarks_idem doc threads' documentId

/-! ## C1: the three-tier synthesize parse -/

/-- A provider reply that is exactly a fenced block holding the expected
structured object. -/
def sampleFencedReply : String :=
  "```json\n" ++ "\x7b" ++ "\"message\":\"m\",\"proposedText\":\"p\"" ++
    "\x7d" ++ "\n```"

theorem extractFields_truthy (j : Json) (m p : Json)
    (h : extractFields j = some (m, p)) : m.truthy ∧ p.truthy := by
  unfold extractFields at h
  split at h
  · rename_i mv pv
    split at h
    · rename_i hcond
      cases h
      exact hcond
    · cases h
  · cases h

theorem bind_extractFields_truthy (o : Option Json) (m p : Json)
    (h : o.bind extractFields = some (m, p)) : m.truthy ∧ p.truthy := by
  cases o with
  | none => cases h
  | some j => exact extractFields_truthy j m p h

/-- C1: `parseJSONResponse` tries exactly the fenced-block, first-brace
and whole-text strategies in this order, stopping at the first that
yields both a (truthy) `message` and `proposedText` field; a reply that
is a fenced block holding the expected object parses to exactly that
pair, and when all three strategies fail the synthesize dispatch returns
the raw text as the message with no `proposedText` — all functions are
total, so no exception is raised. -/
theorem synthesize_parse_three_strategies :
    (∀ text : String,
      parseJSONResponse text =
        match fencedStrategy text with
        | some r => some r
        | none =>
          match braceStrategy text with
          | some r => some r
          | none => wholeTextStrategy text)
    ∧ (∀ (text : String) (m p : Json),
        parseJSONResponse text = some (m, p) → m.truthy ∧ p.truthy)
    ∧ (∀ text : String, parseJSONResponse text = none →
        apiPromiseResult "synthesize" (.success (some text)) =
          { message := Json.str text, proposedText := none })
    ∧ apiPromiseResult "synthesize" (.success (some sampleFencedReply)) =
        { message := Json.str "m", proposedText := some (Json.str "p") } := by
  refine ⟨fun text => rfl, fun text m p h => ?_, fun text h => ?_, rfl⟩
  · unfold parseJSONResponse at h
    rcases h1 : fencedStrategy text with _ | r <;> rw [h1] at h
    · rcases h2 : braceStrategy text with _ | r <;> rw [h2] at h
      · unfold wholeTextStrategy at h
        exact bind_extractFields_truthy _ m p h
      · cases h
        unfold braceStrategy at h2
        rcases h4 : braceCapture text.data with _ | cap <;> rw [h4] at h2
        · cases h2
        · exact bind_extractFields_truthy _ m p h2
    · cases h
      unfold fencedStrategy at h1
      rcases h4 : fencedBlockCapture text.data with _ | cap <;> rw [h4] at h1
      · cases h1
      · exact bind_extractFields_truthy _ m p h1
  · simp [apiPromiseResult, h]

/-- Concrete application of `synthesize_parse_three_strategies`: a reply
with no extractable object degrades to the raw text as the message. -/
theorem synthesize_parse_three_strategies_witness :
    apiPromiseResult "synthesize" (.success (some "no json here")) =
      { message := Json.str "no json here", proposedText := none } :=
  synthesize_parse_three_strategies.2.2.1 "no json here" rfl

/-! ## C4: provider-failure classification -/

/-- A response payload holding only a message. -/
def messageOnly (text : String) : AskAIResponse :=
  { message := Json.str text, proposedText := none }

/-- Modelled from the spec: the fixed failure classification — 401 the
invalid-credential text, 429 the try-again text, anything else the
generic failure text. -/
def specFailureMessage (status : Option Nat) : String :=
  if status = some 401 then invalidKeyMessage
  else if status = some 429 then rateLimitMessage
  else genericFailureMessage

/-- A well-formed critique request body. -/
def validBody : Json :=
  Json.obj [("mode", Json.str "critique"),
    ("userPrompt", Json.str "Is this clear?"),
    ("context", Json.obj [("selectedText", Json.str "The fox jumps.")])]

/-- C4: every provider failure during dispatch is masked into a
success-status payload holding only a message — 401 the fixed
invalid-credential text, 429 the fixed try-again text, anything else the
generic fixed text; only a missing credential is a server-error status
with the configuration message, decided before any dispatch (the result
with a missing key does not depend on the provider race at all). -/
theorem provider_failure_classification :
    ∀ (b : Json) (status : Option Nat) (race : RaceResult),
      (validateRequest b = none →
        POST (some b) true (.api (.error status)) =
          ⟨200, .aiBody (messageOnly (specFailureMessage status))⟩)
      ∧ (validateRequest b = none →
        POST (some b) false race =
          ⟨500, .aiBody (messageOnly notConfiguredMessage)⟩) := by
  intro b status race
  constructor
  · intro h
    by_cases h1 : status = some 401
    · simp [POST, h, callAnthropicWithTimeout, apiPromiseResult, h1,
        messageOnly, specFailureMessage]
    · by_cases h2 : status = some 429
      · simp [POST, h, callAnthropicWithTimeout, apiPromiseResult, h1, h2,
          messageOnly, specFailureMessage]
      · simp [POST, h, callAnthropicWithTimeout, apiPromiseResult, h1, h2,
          messageOnly, specFailureMessage]
  · intro h
    simp [POST, h, messageOnly]

/-- Concrete application of `provider_failure_classification`: a 429
from the provider is masked into a 200 with the fixed rate-limit
message, and the same valid request without a credential is a 500 with
the configuration message. -/
theorem provider_failure_classification_witness :
    POST (some validBody) true (.api (.error (some 429))) =
      ⟨200, .aiBody (messageOnly rateLimitMessage)⟩
    ∧ POST (some validBody) false .timedOut =
      ⟨500, .aiBody (messageOnly notConfiguredMessage)⟩ := by
  constructor
  · have h := (provider_failure_classification validBody (some 429)
      .timedOut).1 rfl
    rw [h]
    rfl
  · exact (provider_failure_classification validBody (some 429)
      .timedOut).2 rfl

/-! ## C5: timeout handling -/

/-- C5: when the race is settled by the timeout, the dispatch resolves
with the fixed timeout message as a normal success-shaped payload —
`callAnthropicWithTimeout` is total, so no exception reaches the caller,
and the timed-out branch carries no provider outcome: the in-flight call
contributes nothing to the result and is never re-dispatched. -/
theorem timeout_masked_as_message :
    ∀ (mode : String) (b : Json),
      callAnthropicWithTimeout mode RaceResult.timedOut =
        messageOnly timeoutMessage
      ∧ (validateRequest b = none →
        POST (some b) true RaceResult.timedOut =
          ⟨200, .aiBody (messageOnly timeoutMessage)⟩) := by
  intro mode b
  refine ⟨rfl, fun h => ?_⟩
  simp [POST, h, callAnthropicWithTimeout, messageOnly]

/-- Concrete application of `timeout_masked_as_message` on a valid
request. -/
theorem timeout_masked_as_message_witness :
    POST (some validBody) true RaceResult.timedOut =
      ⟨200, .aiBody (messageOnly timeoutMessage)⟩ :=
  (timeout_masked_as_message "critique" validBody).2 rfl

/-! ## C6: request validation order -/

/-- Modelled from the spec: the body-shape check in isolation. -/
def checkBodyShape (body : Json) : Option String :=
  if ¬ body.truthy ∨ ¬ typeofObject body then
    some "Request body must be a JSON object"
  else none

/-- Modelled from the spec: the `mode` checks in isolation. -/
def checkMode (body : Json) : Option String :=
  if ¬ optTruthy (body.getField "mode") then
    some "Missing required field: mode"
  else if ¬ optIsString (body.getField "mode") then
    some "Field 'mode' must be a string"
  else if ¬ validModes.contains (strOf (body.getField "mode")) then
    some ("Invalid mode: " ++ strOf (body.getField "mode") ++
      ". Must be one of: critique, synthesize")
  else none

/-- Modelled from the spec: the `userPrompt` checks in isolation. -/
def checkUserPrompt (body : Json) : Option String :=
  if ¬ optTruthy (body.getField "userPrompt") then
    some "Missing required field: userPrompt"
  else if ¬ optIsString (body.getField "userPrompt") then
    some "Field 'userPrompt' must be a string"
  else if jsTrim (strOf (body.getField "userPrompt")) = "" then
    some "Field 'userPrompt' cannot be empty"
  else none

/-- Modelled from the spec: the `context` and `context.selectedText`
checks in isolation. -/
def checkContext (body : Json) : Option String :=
  if ¬ optTruthy (body.getField "context") then
    some "Missing required field: context"
  else if ¬ ((body.getField "context").map typeofObject).getD false then
    some "Field 'context' must be an object"
  else if ¬ optTruthy (((body.getField "context").getD Json.null).getField
      "selectedText") then
    some "Missing required field: context.selectedText"
  else if ¬ optIsString (((body.getField "context").getD Json.null).getField
      "selectedText") then
    some "Field 'context.selectedText' must be a string"
  else if jsTrim (strOf (((body.getField "context").getD Json.null).getField
      "selectedText")) = "" then
    some "Field 'context.selectedText' cannot be empty"
  else none

/-- Modelled from the spec: the `brain` shape checks in isolation. -/
def checkBrain (body : Json) : Option String :=
  if optTruthy (body.getField "brain") then
    if ¬ typeofObject ((body.getField "brain").getD Json.null) then
      some "Field 'brain' must be an object"
    else
      match checkBrainField ((body.getField "brain").getD Json.null) "goal"
          (fun v => optIsString (some v)) "Field 'brain.goal' must be a string" with
      | some e => some e
      | none =>
        match checkBrainField ((body.getField "brain").getD Json.null)
            "constraints" jsonIsArray
            "Field 'brain.constraints' must be an array" with
        | some e => some e
        | none =>
          match checkBrainField ((body.getField "brain").getD Json.null)
              "glossary" jsonIsArray
              "Field 'brain.glossary' must be an array" with
          | some e => some e
          | none =>
            checkBrainField ((body.getField "brain").getD Json.null)
              "decisions" jsonIsArray
              "Field 'brain.decisions' must be an array"
  else none

/-- A request body with a valid mode and context but no `userPrompt`. -/
def missingUserPromptBody : Json :=
  Json.obj [("mode", Json.str "critique"),
    ("context", Json.obj [("selectedText", Json.str "x")])]

theorem option_some_or (a : α) (o : Option α) : (some a).or o = some a := rfl

theorem option_none_or (o : Option α) : Option.or none o = o := rfl

theorem option_or_assoc (a b c : Option α) :
    (a.or b).or c = a.or (b.or c) := by
  cases a <;> cases b <;> rfl

theorem option_or_ite (c : Prop) [Decidable c] (x y z : Option α) :
    (if c then x else y).or z = if c then x.or z else y.or z := by
  by_cases h : c <;> simp [h]

/-- C6: validation is the ordered composition of the per-field checks
(body shape, then mode, then userPrompt, then context with selectedText,
then brain shape) — the first violated field yields its specific
message; any validation error is returned as a client-error error-body
status before dispatch and before the credential check, whatever the
provider race would do; and a request omitting `userPrompt` yields a
400 whose error text names `userPrompt`. -/
theorem validation_first_violation_in_order :
    (∀ b : Json,
      validateRequest b =
        ((((checkBodyShape b).or (checkMode b)).or
          (checkUserPrompt b)).or (checkContext b)).or (checkBrain b))
    ∧ (∀ (b : Json) (e : String) (hasApiKey : Bool) (race : RaceResult),
        validateRequest b = some e →
        POST (some b) hasApiKey race = ⟨400, .errorBody e⟩)
    ∧ validateRequest missingUserPromptBody =
        some "Missing required field: userPrompt"
    ∧ POST (some missingUserPromptBody) true (.api (.success (some "ok"))) =
        ⟨400, .errorBody "Missing required field: userPrompt"⟩
    ∧ "userPrompt".data <:+: "Missing required field: userPrompt".data := by
  refine ⟨fun b => ?_, fun b e hasApiKey race h => ?_, rfl, rfl, by decide⟩
  · rw [option_or_assoc, option_or_assoc, option_or_assoc]
    unfold checkBodyShape checkMode checkUserPrompt checkContext checkBrain
    simp only [option_or_ite, option_some_or, option_none_or]
    unfold validateRequest
    rfl
  · simp [POST, h]

/-- Concrete application of `validation_first_violation_in_order`:
rejecting the request that omits `userPrompt` happens with a 400 even
with no credential configured, before any dispatch. -/
theorem validation_first_violation_in_order_witness :
    POST (some missingUserPromptBody) false RaceResult.timedOut =
      ⟨400, .errorBody "Missing required field: userPrompt"⟩ :=
  validation_first_violation_in_order.2.1 missingUserPromptBody
    "Missing required field: userPrompt" false RaceResult.timedOut rfl
